import Mathlib

/-!
Verification development for the promise-cachify repository (src/index.ts,
class CacheHandler and its helpers).  The TypeScript source is shallowly
embedded: JavaScript primitive values become an inductive type, the
`Map`-backed entry table becomes an association list with JS `Map`
insertion-order semantics, and the synchronous segments of the stateful
methods become explicit state-passing functions.  Promise settlement is
modelled by explicit transition functions (`settleRejected`), and wall-clock
time (`Date.now()`) is passed as an explicit natural-number parameter in
milliseconds.
-/

namespace PromiseCachify

/-- JavaScript primitive values as they matter to key generation:
`typeof v` is one of `string`/`number`/`boolean`, or the value is
`null`/`undefined`.  Numbers are modelled by integers plus `NaN`
(the source only ever renders them via `String(v)`). -/
inductive JsPrim where
  | str (s : String)
  | int (n : Int)
  | nan
  | bool (b : Bool)
  | null
  | undef
deriving DecidableEq

/-- JavaScript `String(v)` rendering for the primitives of `JsPrim`. -/
def jsString : JsPrim → String
  | .str s => s
  | .int n => toString n
  | .nan => "NaN"
  | .bool true => "true"
  | .bool false => "false"
  | .null => "null"
  | .undef => "undefined"

/-- A value nested inside a one-level object or array argument: either a
primitive, or some non-primitive (nested object/array/map/function, all of
which `isBadKeySegment` treats identically). -/
inductive JsShallow where
  | prim (p : JsPrim)
  | complexv
deriving DecidableEq

/-- A top-level call argument: primitive, plain object (one level of
string-keyed fields), array, or an unsupported value (a non-plain object
such as a `Map`, `Set` or function). -/
inductive JsVal where
  | prim (p : JsPrim)
  | obj (fields : List (String × JsShallow))
  | arr (elems : List JsShallow)
  | unsupported
deriving DecidableEq

/-- Source `isBadKeySegment` on top-level values: `null`/`undefined` and
values of typeof `string`/`number`/`boolean` are good; everything else is
bad. -/
def isBadKeySegment : JsVal → Bool
  | .prim _ => false
  | _ => true

/-- Source `isBadKeySegment` applied to a nested (shallow) value. -/
def isBadShallow : JsShallow → Bool
  | .prim _ => false
  | .complexv => true

/-- Source constant `DefaultKey = '__INTERNAL_USE__'`. -/
def DefaultKey : String := "__INTERNAL_USE__"

/-- Source `transformKey`: strings pass through; other primitives render as
`$-` followed by `String(v)`; bad segments give `null`. -/
def transformKey : JsVal → Option String
  | .prim (.str s) => some s
  | .prim p => some ("$-" ++ jsString p)
  | _ => none

/-- Source `transformKey` restricted to nested (shallow) values. -/
def transformKeySh : JsShallow → Option String
  | .prim (.str s) => some s
  | .prim p => some ("$-" ++ jsString p)
  | .complexv => none

/-- Lexicographic comparison of character lists by code point: the order the
default comparator of `Array.prototype.sort` induces on strings. -/
def chLe : List Char → List Char → Bool
  | [], _ => true
  | _ :: _, [] => false
  | a :: as, b :: bs =>
    if a.toNat < b.toNat then true
    else if b.toNat < a.toNat then false
    else chLe as bs

/-- String comparison used by `Object.keys(obj).sort()`. -/
def strLe (a b : String) : Bool := chLe a.data b.data

/-- Insert one field into a list of fields sorted by field name; helper of
`sortFields`. -/
def insField (x : String × JsShallow) : List (String × JsShallow) → List (String × JsShallow)
  | [] => [x]
  | y :: ys => if strLe x.1 y.1 then x :: y :: ys else y :: insField x ys

/-- The effect of `Object.keys(obj).sort()` on the field list: sort the
fields of a plain object lexicographically by field name (insertion sort). -/
def sortFields : List (String × JsShallow) → List (String × JsShallow)
  | [] => []
  | x :: xs => insField x (sortFields xs)

/-- Result of processing one argument in the `generateKey` loop: either the
whole derivation fails (`return null`), or the argument contributes a list
of key segments (possibly empty: a bad top-level argument is skipped). -/
inductive SegRes where
  | fail
  | segs (l : List String)
deriving DecidableEq

/-- One iteration of the `generateKey` loop (source lines 283-309):
plain objects with a bad value fail, otherwise contribute one sorted
`name=value` segment per field (or the literal segment `{}` when empty);
arrays with a bad element fail, otherwise contribute one bracketed segment
(or `[]`); primitives contribute their transform; a bad top-level argument
contributes nothing. -/
def segsOfArg : JsVal → SegRes
  | .obj fields =>
    if fields ≠ [] then
      if fields.any (fun kv => isBadShallow kv.2) then .fail
      else .segs ((sortFields fields).map (fun kv => kv.1 ++ "=" ++ ((transformKeySh kv.2).getD "")))
    else .segs ["\x7b\x7d"]
  | .arr elems =>
    if elems ≠ [] then
      if elems.any isBadShallow then .fail
      else .segs ["[" ++ String.intercalate "_" (elems.map (fun e => (transformKeySh e).getD "")) ++ "]"]
    else .segs ["[]"]
  | .prim p => .segs [(transformKey (.prim p)).getD ""]
  | .unsupported => .segs []

/-- The `generateKey` loop over all arguments, accumulating segments and
propagating the early `return null`. -/
def genSegs : List JsVal → Option (List String)
  | [] => some []
  | a :: rest =>
    match segsOfArg a with
    | .fail => none
    | .segs s => (genSegs rest).map (fun t => s ++ t)

/-- Source `generateKey` (lines 278-314): a single `undefined` argument gives
`DefaultKey`; otherwise run the loop; an empty segment list gives `null`,
else the segments joined with `&`. -/
def generateKey (args : List JsVal) : Option String :=
  if args = [JsVal.prim JsPrim.undef] then some DefaultKey
  else
    match genSegs args with
    | none => none
    | some segs => if segs = [] then none else some (String.intercalate "&" segs)

/-- The `key` configuration option: absent (`undefined`), a static value, or
a function of the call arguments. -/
inductive KeyConfig where
  | absent
  | static (k : JsVal)
  | fn (f : List JsVal → JsVal)

/-- Source `CacheHandler.getCacheKey` (lines 419-442): a configured custom
key takes priority (a function's result, or a static value, passed through
`transformKey`; a bad static value is ignored to `null`); otherwise
arguments are auto-keyed by `generateKey`, and a call without arguments
uses `DefaultKey`. -/
def getCacheKey (kc : KeyConfig) (args : List JsVal) : Option String :=
  match kc with
  | .fn f => transformKey (f args)
  | .static k => if ¬ isBadKeySegment k then transformKey k else none
  | .absent => if args ≠ [] then generateKey args else some DefaultKey

/-- A cache entry (source `ICacheItem`): an expiry timestamp in epoch
milliseconds (`0` = never expires) and a payload.  The payload type is a
parameter: `String` for settled, serialized data (`TStoreItem`), `Nat` (a
producer-promise identifier) for the in-flight promise model. -/
structure Entry (β : Type) where
  expire : Nat
  data : β
deriving DecidableEq

/-- The entry table `_cacheMap`, as an association list with JS `Map`
semantics (unique keys, insertion order preserved). -/
abbrev Table (β : Type) : Type := List (String × Entry β)

/-- JS `Map.prototype.set`: update in place if the key exists, else append. -/
def alSet {γ : Type} : List (String × γ) → String → γ → List (String × γ)
  | [], k, v => [(k, v)]
  | p :: rest, k, v => if p.1 = k then (k, v) :: rest else p :: alSet rest k v

/-- JS `Map.prototype.get` (as an `Option`). -/
def alGet {γ : Type} : List (String × γ) → String → Option γ
  | [], _ => none
  | p :: rest, k => if p.1 = k then some p.2 else alGet rest k

/-- JS `Map.prototype.delete` (drops the entry for the key, if any). -/
def alDel {γ : Type} : List (String × γ) → String → List (String × γ)
  | [], _ => []
  | p :: rest, k => if p.1 = k then rest else p :: alDel rest k

/-- Source `normalizeKey` (lines 253-255): rewrite `undefined` to the
default key, leave every other value (including falsy ones) unchanged. -/
def normalizeKey : JsVal → JsVal
  | .prim .undef => .prim (.str DefaultKey)
  | k => k

/-- JavaScript truthiness of a value used in `if (key)` tests. -/
def truthy : JsVal → Bool
  | .prim (.str s) => s ≠ ""
  | .prim (.int n) => n ≠ 0
  | .prim .nan => false
  | .prim (.bool b) => b
  | .prim .null => false
  | .prim .undef => false
  | _ => true

/-- Source `isString`. -/
def isString : JsVal → Bool
  | .prim (.str _) => true
  | _ => false

/-- Shorthand for a JS string value. -/
def jstr (s : String) : JsVal := .prim (.str s)

/-- Table lookup by an arbitrary JS value, as `Map.prototype.get` behaves on
a map whose keys are all strings: non-string keys never match. -/
def mapGetJ {β : Type} (tbl : Table β) : JsVal → Option (Entry β)
  | .prim (.str s) => alGet tbl s
  | _ => none

/-- Table deletion by an arbitrary JS value (non-string keys delete
nothing, since the table holds only string keys). -/
def mapDeleteJ {β : Type} (tbl : Table β) : JsVal → Table β
  | .prim (.str s) => alDel tbl s
  | _ => tbl

/-- The effect of `CacheHandler.clear` on the table alone (lines 448-454):
normalize the key; if it is truthy, delete it, otherwise do nothing.
The accompanying persistence rewrite is modelled by `clearOp`. -/
def clearTbl {β : Type} (key : JsVal) (tbl : Table β) : Table β :=
  let k := normalizeKey key
  if truthy k then mapDeleteJ tbl k else tbl

/-- Source `CacheHandler.has` (lines 519-530): normalize the key; a present
entry whose expiry is nonzero and in the past is cleared (lazy eviction)
and reported absent; otherwise a present entry reports `true`.  Returns the
reported liveness together with the possibly-updated table. -/
def hasOp {β : Type} (now : Nat) (key : JsVal) (tbl : Table β) : Bool × Table β :=
  let k := normalizeKey key
  match mapGetJ tbl k with
  | some e => if e.expire ≠ 0 ∧ now > e.expire then (false, clearTbl k tbl) else (true, tbl)
  | none => (false, tbl)

/-- Result of `CacheHandler.set`: the updated table, the boolean return
value, and the list of timers scheduled during the call, each a delay in
milliseconds paired with the key its callback clears.  The source `set`
(lines 469-491) schedules no timer, so `setOp` always returns `[]` there. -/
structure SetEffect (β : Type) where
  table : Table β
  ok : Bool
  timers : List (Nat × String)
deriving DecidableEq

/-- Source `CacheHandler.set` (lines 469-491), synchronous part: normalize
the key and reject non-strings (`return false`); compute
`expire = maxAge > 0 ? now + maxAge * 1000 : 0`; register the entry into
the table synchronously.  No timer is scheduled. -/
def setOp {β : Type} (maxAge now : Nat) (key : JsVal) (d : β) (tbl : Table β) : SetEffect β :=
  match normalizeKey key with
  | .prim (.str s) =>
    let expire := if maxAge > 0 then now + maxAge * 1000 else 0
    { table := alSet tbl s { expire := expire, data := d }, ok := true, timers := [] }
  | _ => { table := tbl, ok := false, timers := [] }

/-- The older variant's `set` (first document in src/index.ts, lines
140-155): `expire = maxAge > 0 ? now + maxAge * 100 : 0`, and when
`maxAge > 0` a `setTimeout(() => this.clear(key), 0)` is scheduled — a
timer with zero delay. -/
def oldSetOp {β : Type} (maxAge now : Nat) (k : String) (d : β) (tbl : Table β) : SetEffect β :=
  let expire := if maxAge > 0 then now + maxAge * 100 else 0
  { table := alSet tbl k { expire := expire, data := d },
    ok := true,
    timers := if maxAge > 0 then [(0, k)] else [] }

/-- A persisted snapshot: the parsed form of the JSON string written to the
storage slot — an ordered sequence of two-element entries
`[cacheKey, (expire, data)]` with `data` the serialized payload string. -/
abbrev Snap : Type := List (String × Nat × String)

/-- The external storage backend (`sessionStorage`/`localStorage`) as a
slot-name-to-snapshot map. -/
abbrev Store : Type := List (String × Snap)

/-- Source constant `StorePrefix = 'PROMISE_CACHIFY_'` prepended to the
persist identifier to form the storage slot name. -/
def StorePre : String := "PROMISE_CACHIFY_"

/-- Storage `setItem`. -/
def storeSet (st : Store) (slot : String) (snap : Snap) : Store := alSet st slot snap

/-- Storage `getItem`. -/
def storeGet (st : Store) (slot : String) : Option Snap := alGet st slot

/-- Storage `removeItem`. -/
def storeRemove (st : Store) (slot : String) : Store := alDel st slot

/-- Source `CacheHandler._persistCache` (lines 346-361) for a table of
settled entries, persistence configured with identifier `pid`: a nonempty
table is serialized in iteration order as `[key, (expire, data)]` pairs and
written wholesale to slot `StorePre ++ pid`; an empty table removes the
slot. -/
def persistCacheOp (pid : String) (tbl : Table String) (store : Store) : Store :=
  if tbl = [] then storeRemove store (StorePre ++ pid)
  else storeSet store (StorePre ++ pid) (tbl.map (fun p => (p.1, p.2.expire, p.2.data)))

/-- The `if (this._persist)` guard around `_persistCache`'s body: with no
persist identifier the storage is untouched. -/
def persistCacheOpt (pid : Option String) (tbl : Table String) (store : Store) : Store :=
  match pid with
  | none => store
  | some id => persistCacheOp id tbl store

/-- Source `CacheHandler._loadCache` (lines 363-381): read the snapshot at
slot `StorePre ++ pid` (absent snapshot: start empty) and replay its
entries into a fresh table via `Map.set`, turning each stored `data` string
back into (the settled value of) `Promise.resolve(data)`. -/
def loadCacheOp (pid : String) (store : Store) : Table String :=
  match storeGet store (StorePre ++ pid) with
  | none => []
  | some snap => snap.foldl (fun m e => alSet m e.1 { expire := e.2.1, data := e.2.2 }) []

/-- Source `CacheHandler.clear` (lines 448-454) with its persistence side
effect: normalize the key; if truthy, delete it from the table and rewrite
the snapshot; otherwise neither the table nor the store changes. -/
def clearOp (pid : Option String) (key : JsVal) (tbl : Table String) (store : Store) :
    Table String × Store :=
  let k := normalizeKey key
  if truthy k then
    let t := mapDeleteJ tbl k
    (t, persistCacheOpt pid t store)
  else (tbl, store)

/-- Source `CacheHandler.clearAll` (lines 459-462): empty the table and
resync persistence (removing the slot, as the table is now empty). -/
def clearAllOp (pid : Option String) (store : Store) : Table String × Store :=
  ([], persistCacheOpt pid [] store)

/-- Source `CacheHandler.get` (lines 498-504) at table level: probe with
`has` (performing its lazy eviction) and return the payload of a live
entry.  The payload is the serialized string the data promise settles to;
the caller-visible value is its deterministic `JSON.parse`. -/
def getOp (now : Nat) (key : JsVal) (tbl : Table String) : Option String × Table String :=
  let r := hasOp now key tbl
  if r.1 then ((mapGetJ r.2 (normalizeKey key)).map Entry.data, r.2) else (none, r.2)

/-- Outcome of the deferred write performed by `_persistCache` through the
storage backend (`setItem` may throw, e.g. on quota exhaustion). -/
inductive WriteOutcome where
  | success
  | failure
deriving DecidableEq

/-- Observable outcome of one `_persistCache` call (lines 346-361) given the
backend write outcome: whether the snapshot was written or the slot
removed, whether any error was logged by the cache code, and whether an
error escaped as an unhandled promise rejection.  The source wraps the
write in `Promise.all(...).then(...)` with no `catch` and no `logError`,
so a throwing `setItem` produces an unhandled rejection (detached from
every caller-facing promise) and logs nothing; the in-memory table is
returned unchanged in every case. -/
structure PersistRunResult where
  table : Table String
  wrote : Bool
  removedSlot : Bool
  loggedError : Bool
  unhandledRejection : Bool
deriving DecidableEq

/-- Evaluation of `_persistCache` (lines 346-361) including the deferred
write step, against a backend whose `setItem` either succeeds or throws. -/
def persistCacheRun (pid : Option String) (tbl : Table String) (w : WriteOutcome) :
    PersistRunResult :=
  match pid with
  | none => { table := tbl, wrote := false, removedSlot := false, loggedError := false, unhandledRejection := false }
  | some _ =>
    if tbl = [] then
      { table := tbl, wrote := false, removedSlot := true, loggedError := false, unhandledRejection := false }
    else
      match w with
      | .success => { table := tbl, wrote := true, removedSlot := false, loggedError := false, unhandledRejection := false }
      | .failure => { table := tbl, wrote := false, removedSlot := false, loggedError := false, unhandledRejection := true }

/-- State of the in-flight promise model: the entry table whose payloads
are producer-promise identifiers (the promise a cached `data` chain derives
from), and the number of producer (resolver) invocations so far.  The
identifier of the `n`-th producer call is `n`. -/
structure PState where
  table : Table Nat
  calls : Nat
deriving DecidableEq

/-- The promise returned to the caller of `do`: either the producer's own
promise (`fresh p`, a cache miss or an uncacheable call), or a promise
derived from the cached entry for key `k` backed by producer promise `p`
(`cached`, i.e. `get`'s `data.then(JSON.parse)` chain). -/
inductive DoRes where
  | fresh (p : Nat)
  | cached (k : String) (p : Nat)
deriving DecidableEq

/-- Source `CacheHandler.do` (lines 396-412), synchronous segment: derive
the key; on a truthy key probe `has` (with lazy eviction) and return the
cached chain on a hit; otherwise invoke the resolver (allocating producer
promise `st.calls`) and, when the key is truthy, register the in-flight
result synchronously via `set`; falsy or failed keys skip caching. -/
def doSync (maxAge : Nat) (kc : KeyConfig) (now : Nat) (args : List JsVal) (st : PState) :
    PState × DoRes :=
  match getCacheKey kc args with
  | some k =>
    if k ≠ "" then
      let pr := hasOp now (jstr k) st.table
      if pr.1 then
        ({ st with table := pr.2 }, .cached k (((alGet pr.2 k).map Entry.data).getD 0))
      else
        let p := st.calls
        let eff := setOp maxAge now (jstr k) p pr.2
        ({ table := eff.table, calls := st.calls + 1 }, .fresh p)
    else
      ({ st with calls := st.calls + 1 }, .fresh st.calls)
  | none => ({ st with calls := st.calls + 1 }, .fresh st.calls)

/-- The rejection handler `set` attaches to the original task (source lines
486-489): when the producer promise registered under key `k` rejects, the
entry for `k` is deleted from the table (`_cacheMap.delete(key)`). -/
def settleRejected (k : String) (st : PState) : PState :=
  { st with table := alDel st.table k }

/-- The value a caller eventually observes from a `do` result, given the
values `out p` the producer promises settle to and the serialize/parse
boundary (`JSON.stringify`/`JSON.parse`): a fresh result is the producer's
value itself; a cached result is the parse of the serialized value. -/
def resolvesTo {α : Type} (ser : α → String) (de : String → α) (out : Nat → α) :
    DoRes → α
  | .fresh p => out p
  | .cached _ p => de (ser (out p))

/-! Association-list lemmas. -/

theorem alGet_alSet_self {γ : Type} (l : List (String × γ)) (k : String) (v : γ) :
    alGet (alSet l k v) k = some v := by
  induction l with
  | nil => simp [alSet, alGet]
  | cons p rest ih =>
    by_cases h : p.1 = k
    · simp [alSet, alGet, h]
    · simp [alSet, alGet, h, ih]

theorem alGet_eq_none_iff {γ : Type} (l : List (String × γ)) (k : String) :
    alGet l k = none ↔ ∀ p ∈ l, p.1 ≠ k := by
  induction l with
  | nil => simp [alGet]
  | cons p rest ih =>
    by_cases h : p.1 = k
    · simp [alGet, h]
    · simp [alGet, h, ih]

theorem alDel_alSet_of_absent {γ : Type} (l : List (String × γ)) (k : String) (v : γ)
    (h : alGet l k = none) : alDel (alSet l k v) k = l := by
  induction l with
  | nil => simp [alSet, alDel]
  | cons p rest ih =>
    rw [alGet_eq_none_iff] at h
    have hp : p.1 ≠ k := h p (by simp)
    have hrest : alGet rest k = none := by
      rw [alGet_eq_none_iff]
      intro q hq
      exact h q (by simp [hq])
    simp [alSet, alDel, hp, ih hrest]

theorem mem_alSet {γ : Type} (l : List (String × γ)) (k : String) (v : γ) (q : String × γ)
    (hq : q ∈ alSet l k v) : q.1 = k ∨ q ∈ l := by
  induction l with
  | nil =>
    simp only [alSet, List.mem_singleton] at hq
    left; rw [hq]
  | cons p rest ih =>
    by_cases hp : p.1 = k
    · simp only [alSet, if_pos hp] at hq
      rcases List.mem_cons.mp hq with hq | hq
      · left; rw [hq]
      · right; exact List.mem_cons_of_mem p hq
    · simp only [alSet, if_neg hp] at hq
      rcases List.mem_cons.mp hq with hq | hq
      · right; rw [hq]; exact List.mem_cons_self p rest
      · rcases ih hq with h | h
        · left; exact h
        · right; exact List.mem_cons_of_mem p h

theorem keys_alSet_nodup {γ : Type} (l : List (String × γ)) (k : String) (v : γ)
    (h : (l.map Prod.fst).Nodup) : ((alSet l k v).map Prod.fst).Nodup := by
  induction l with
  | nil => simp [alSet]
  | cons p rest ih =>
    rw [List.map_cons, List.nodup_cons] at h
    by_cases hp : p.1 = k
    · simp only [alSet, if_pos hp]
      rw [List.map_cons, List.nodup_cons]
      refine ⟨?_, h.2⟩
      rw [← hp]
      exact h.1
    · simp only [alSet, if_neg hp]
      rw [List.map_cons, List.nodup_cons]
      refine ⟨?_, ih h.2⟩
      intro hmem
      obtain ⟨q, hq, hq1⟩ := List.mem_map.mp hmem
      rcases mem_alSet rest k v q hq with hqk | hqm
      · exact hp (by rw [← hq1, hqk])
      · exact h.1 (hq1 ▸ List.mem_map_of_mem Prod.fst hqm)

theorem alGet_alDel_self_of_nodup {γ : Type} (l : List (String × γ)) (k : String)
    (h : (l.map Prod.fst).Nodup) : alGet (alDel l k) k = none := by
  induction l with
  | nil => simp [alDel, alGet]
  | cons p rest ih =>
    simp only [List.map_cons, List.nodup_cons] at h
    by_cases hp : p.1 = k
    · subst hp
      simp only [alDel, if_pos rfl]
      rw [alGet_eq_none_iff]
      intro q hq hq1
      exact h.1 (hq1 ▸ List.mem_map_of_mem Prod.fst hq)
    · simp [alDel, alGet, hp, ih h.2]

/-! Order lemmas for the `strLe` comparator. -/

theorem chLe_total (as bs : List Char) : chLe as bs = true ∨ chLe bs as = true := by
  induction as generalizing bs with
  | nil => left; rfl
  | cons a as ih =>
    cases bs with
    | nil => right; rfl
    | cons b bs =>
      rcases Nat.lt_trichotomy a.toNat b.toNat with h | h | h
      · left; simp [chLe, h]
      · rcases ih bs with h2 | h2
        · left; simp [chLe, h, h2]
        · right; simp [chLe, h, h2]
      · right; simp [chLe, h]

theorem chLe_head_le (a b : Char) (as bs : List Char)
    (h : chLe (a :: as) (b :: bs) = true) : a.toNat ≤ b.toNat := by
  by_contra hc
  have hba : b.toNat < a.toNat := Nat.lt_of_not_le hc
  have hab : ¬ a.toNat < b.toNat := Nat.lt_asymm hba
  simp [chLe, hab, hba] at h

theorem chLe_antisymm (as : List Char) : ∀ bs, chLe as bs = true → chLe bs as = true → as = bs := by
  induction as with
  | nil =>
    intro bs h1 h2
    cases bs with
    | nil => rfl
    | cons b bs => simp [chLe] at h2
  | cons a as ih =>
    intro bs h1 h2
    cases bs with
    | nil => simp [chLe] at h1
    | cons b bs =>
      rcases Nat.lt_trichotomy a.toNat b.toNat with h | h | h
      · have hba : ¬ b.toNat < a.toNat := Nat.lt_asymm h
        simp [chLe, h, hba] at h2
      · have hab : a = b := Char.eq_of_val_eq (UInt32.toNat.inj h)
        subst hab
        have hlt : ¬ a.toNat < a.toNat := Nat.lt_irrefl _
        simp only [chLe, if_neg hlt] at h1 h2
        rw [ih bs h1 h2]
      · have hab : ¬ a.toNat < b.toNat := Nat.lt_asymm h
        simp [chLe, hab, h] at h1

theorem chLe_trans (as : List Char) :
    ∀ bs cs, chLe as bs = true → chLe bs cs = true → chLe as cs = true := by
  induction as with
  | nil => intro bs cs _ _; rfl
  | cons a as ih =>
    intro bs cs h1 h2
    cases bs with
    | nil => simp [chLe] at h1
    | cons b bs =>
      cases cs with
      | nil => simp [chLe] at h2
      | cons c cs =>
        have hab : a.toNat ≤ b.toNat := chLe_head_le a b as bs h1
        have hbc : b.toNat ≤ c.toNat := chLe_head_le b c bs cs h2
        rcases Nat.lt_or_ge a.toNat c.toNat with hac | hac
        · simp [chLe, hac]
        · have hca : c.toNat ≤ a.toNat := hac
          have hac' : a.toNat = c.toNat :=
            Nat.le_antisymm (Nat.le_trans hab hbc) hca
          have hba : b.toNat ≤ a.toNat := hac' ▸ hbc
          have hab' : a.toNat = b.toNat := Nat.le_antisymm hab hba
          have hbc' : b.toNat = c.toNat := hab' ▸ hac'
          have hlt1 : ¬ a.toNat < b.toNat := by rw [hab']; exact Nat.lt_irrefl _
          have hlt2 : ¬ b.toNat < a.toNat := by rw [hab']; exact Nat.lt_irrefl _
          have hlt3 : ¬ b.toNat < c.toNat := by rw [hbc']; exact Nat.lt_irrefl _
          have hlt4 : ¬ c.toNat < b.toNat := by rw [hbc']; exact Nat.lt_irrefl _
          have hlt5 : ¬ a.toNat < c.toNat := by rw [hac']; exact Nat.lt_irrefl _
          have hlt6 : ¬ c.toNat < a.toNat := by rw [hac']; exact Nat.lt_irrefl _
          simp only [chLe, if_neg hlt1, if_neg hlt2] at h1
          simp only [chLe, if_neg hlt3, if_neg hlt4] at h2
          simp only [chLe, if_neg hlt5, if_neg hlt6]
          exact ih bs cs h1 h2

theorem strLe_total (a b : String) : strLe a b = true ∨ strLe b a = true :=
  chLe_total a.data b.data

theorem strLe_trans (a b c : String) (h1 : strLe a b = true) (h2 : strLe b c = true) :
    strLe a c = true :=
  chLe_trans a.data b.data c.data h1 h2

theorem strLe_antisymm (a b : String) (h1 : strLe a b = true) (h2 : strLe b a = true) :
    a = b := by
  cases a; cases b
  exact congrArg String.mk (chLe_antisymm _ _ h1 h2)

theorem strLe_of_not_strLe (a b : String) (h : ¬ strLe a b = true) : strLe b a = true := by
  rcases strLe_total a b with h1 | h1
  · exact absurd h1 h
  · exact h1

/-! Sorting lemmas for `sortFields`. -/

theorem insField_perm (x : String × JsShallow) (l : List (String × JsShallow)) :
    (insField x l).Perm (x :: l) := by
  induction l with
  | nil => simp [insField]
  | cons y ys ih =>
    by_cases h : strLe x.1 y.1
    · simp [insField, h]
    · simp only [insField, if_neg h]
      exact (ih.cons y).trans (List.Perm.swap x y ys)

theorem sortFields_perm (l : List (String × JsShallow)) : (sortFields l).Perm l := by
  induction l with
  | nil => simp [sortFields]
  | cons x xs ih =>
    exact (insField_perm x (sortFields xs)).trans (ih.cons x)

theorem insField_sorted (x : String × JsShallow) (l : List (String × JsShallow))
    (h : l.Pairwise (fun a b => strLe a.1 b.1 = true)) :
    (insField x l).Pairwise (fun a b => strLe a.1 b.1 = true) := by
  induction l with
  | nil => simp [insField]
  | cons y ys ih =>
    rcases List.pairwise_cons.mp h with ⟨hy, hys⟩
    by_cases hle : strLe x.1 y.1 = true
    · simp only [insField, if_pos hle]
      refine List.pairwise_cons.mpr ⟨?_, h⟩
      intro z hz
      rcases List.mem_cons.mp hz with hz | hz
      · rw [hz]; exact hle
      · exact strLe_trans x.1 y.1 z.1 hle (hy z hz)
    · simp only [insField, if_neg hle]
      refine List.pairwise_cons.mpr ⟨?_, ih hys⟩
      intro z hz
      rcases List.mem_cons.mp ((insField_perm x ys).mem_iff.mp hz) with hz' | hz'
      · rw [hz']; exact strLe_of_not_strLe x.1 y.1 hle
      · exact hy z hz'

theorem sortFields_sorted (l : List (String × JsShallow)) :
    (sortFields l).Pairwise (fun a b => strLe a.1 b.1 = true) := by
  induction l with
  | nil => simp [sortFields]
  | cons x xs ih => exact insField_sorted x (sortFields xs) ih

theorem sortFields_eq_of_perm (ps qs : List (String × JsShallow))
    (hp : ps.Perm qs) (hn : (ps.map Prod.fst).Nodup) :
    sortFields ps = sortFields qs := by
  have hsp : (sortFields ps).Perm (sortFields qs) :=
    (sortFields_perm ps).trans (hp.trans (sortFields_perm qs).symm)
  have hnp : ((sortFields ps).map Prod.fst).Nodup :=
    ((sortFields_perm ps).map Prod.fst).nodup_iff.mpr hn
  have hlt : (sortFields ps).Pairwise (fun a b => strLe a.1 b.1 = true ∧ a.1 ≠ b.1) := by
    have hne : (sortFields ps).Pairwise (fun a b => a.1 ≠ b.1) :=
      (List.pairwise_map.mp hnp)
    exact (sortFields_sorted ps).and hne
  have hlt' : (sortFields qs).Pairwise (fun a b => strLe a.1 b.1 = true ∧ a.1 ≠ b.1) := by
    have hnq : ((sortFields qs).map Prod.fst).Nodup :=
      (hsp.map Prod.fst).nodup_iff.mp hnp
    have hne : (sortFields qs).Pairwise (fun a b => a.1 ≠ b.1) :=
      (List.pairwise_map.mp hnq)
    exact (sortFields_sorted qs).and hne
  haveI : IsAntisymm (String × JsShallow) (fun a b => strLe a.1 b.1 = true ∧ a.1 ≠ b.1) :=
    ⟨fun a b h1 h2 => absurd (strLe_antisymm a.1 b.1 h1.1 h2.1) h1.2⟩
  exact List.eq_of_perm_of_sorted hsp hlt hlt'

theorem any_eq_of_perm {γ : Type} {l₁ l₂ : List γ} (h : l₁.Perm l₂) (f : γ → Bool) :
    l₁.any f = l₂.any f := by
  cases hb : l₂.any f
  · rw [List.any_eq_false] at hb ⊢
    intro x hx
    exact hb x (h.mem_iff.mp hx)
  · rw [List.any_eq_true] at hb ⊢
    obtain ⟨x, hx, hfx⟩ := hb
    exact ⟨x, h.mem_iff.mpr hx, hfx⟩

theorem segsOfArg_obj_perm (ps qs : List (String × JsShallow))
    (hp : ps.Perm qs) (hn : (ps.map Prod.fst).Nodup) :
    segsOfArg (.obj ps) = segsOfArg (.obj qs) := by
  by_cases hps : ps = []
  · have hqs : qs = [] := by
      subst hps
      exact hp.symm.eq_nil
    rw [hps, hqs]
  · have hqs : qs ≠ [] := by
      intro h
      rw [h] at hp
      exact hps hp.eq_nil
    simp only [segsOfArg, if_pos hps, if_pos hqs]
    rw [any_eq_of_perm hp (fun kv => isBadShallow kv.2),
        sortFields_eq_of_perm ps qs hp hn]

theorem generateKey_obj_perm (ps qs : List (String × JsShallow))
    (hp : ps.Perm qs) (hn : (ps.map Prod.fst).Nodup) :
    generateKey [JsVal.obj ps] = generateKey [JsVal.obj qs] := by
  have hne1 : [JsVal.obj ps] ≠ [JsVal.prim JsPrim.undef] := by simp
  have hne2 : [JsVal.obj qs] ≠ [JsVal.prim JsPrim.undef] := by simp
  simp only [generateKey, if_neg hne1, if_neg hne2, genSegs,
    segsOfArg_obj_perm ps qs hp hn]

theorem genSegs_none_of_mem_fail (args : List JsVal) (a : JsVal)
    (ha : a ∈ args) (hf : segsOfArg a = .fail) : genSegs args = none := by
  induction args with
  | nil => cases ha
  | cons x rest ih =>
    rcases List.mem_cons.mp ha with h | h
    · rw [h] at hf
      simp [genSegs, hf]
    · cases hx : segsOfArg x with
      | fail => simp [genSegs, hx]
      | segs s => simp [genSegs, hx, ih h]

theorem generateKey_none_of_mem_fail (args : List JsVal) (a : JsVal)
    (ha : a ∈ args) (hf : segsOfArg a = .fail) : generateKey args = none := by
  have hne : args ≠ [JsVal.prim JsPrim.undef] := by
    intro h
    rw [h] at ha
    rw [List.mem_singleton.mp ha] at hf
    simp [segsOfArg] at hf
  simp only [generateKey, if_neg hne, genSegs_none_of_mem_fail args a ha hf]

theorem genSegs_skip (pre post : List JsVal) :
    genSegs (pre ++ JsVal.unsupported :: post) = genSegs (pre ++ post) := by
  induction pre with
  | nil =>
    simp only [List.nil_append, genSegs, segsOfArg]
    cases h : genSegs post with
    | none => simp [h]
    | some t => simp [h]
  | cons x rest ih =>
    simp only [List.cons_append]
    cases hx : segsOfArg x with
    | fail => simp [genSegs, hx]
    | segs s => simp [genSegs, hx, ih]

/-! Unfolding lemmas for the stateful operations at string keys. -/

theorem normalizeKey_of_ne_undef (k : JsVal) (h : k ≠ JsVal.prim JsPrim.undef) :
    normalizeKey k = k := by
  cases k with
  | prim p => cases p <;> first | rfl | exact absurd rfl h
  | obj l => rfl
  | arr l => rfl
  | unsupported => rfl

theorem setOp_jstr {β : Type} (maxAge now : Nat) (k : String) (d : β) (tbl : Table β) :
    setOp maxAge now (jstr k) d tbl
      = { table := alSet tbl k ⟨if maxAge > 0 then now + maxAge * 1000 else 0, d⟩,
          ok := true, timers := [] } := rfl

theorem hasOp_jstr_none {β : Type} (now : Nat) (k : String) (tbl : Table β)
    (hget : alGet tbl k = none) : hasOp now (jstr k) tbl = (false, tbl) := by
  simp [hasOp, jstr, normalizeKey, mapGetJ, hget]

theorem hasOp_jstr_live {β : Type} (now : Nat) (k : String) (tbl : Table β) (e : Entry β)
    (hget : alGet tbl k = some e) (hlive : ¬ (e.expire ≠ 0 ∧ now > e.expire)) :
    hasOp now (jstr k) tbl = (true, tbl) := by
  simp [hasOp, jstr, normalizeKey, mapGetJ, hget, if_neg hlive]

theorem hasOp_jstr_expired {β : Type} (now : Nat) (k : String) (tbl : Table β) (e : Entry β)
    (hget : alGet tbl k = some e) (hexp : e.expire ≠ 0 ∧ now > e.expire) :
    hasOp now (jstr k) tbl = (false, clearTbl (jstr k) tbl) := by
  simp [hasOp, jstr, normalizeKey, mapGetJ, hget, if_pos hexp]

theorem clearTbl_jstr_ne {β : Type} (k : String) (tbl : Table β) (h : k ≠ "") :
    clearTbl (jstr k) tbl = alDel tbl k := by
  simp [clearTbl, jstr, normalizeKey, truthy, mapDeleteJ, h]

/-- C2: key derivation for a flat record argument of primitive values is
deterministic and lexicographically ordered: permuting the (distinct)
property names leaves the derived key unchanged, `sortFields` is a
lexicographic sort (a permutation of the input, pairwise ordered by the
string comparator), and concretely both `deriveKey(\x7bid:1,name:'xx',age:1\x7d)`
and `deriveKey(\x7bage:1,name:'xx',id:1\x7d)` equal `"age=$-1&id=$-1&name=xx"`
with non-string primitives rendered under the `$-` marker. -/
theorem C2_key_determinism_and_ordering (ps qs : List (String × JsShallow))
    (hp : ps.Perm qs) (hn : (ps.map Prod.fst).Nodup) :
    generateKey [JsVal.obj ps] = generateKey [JsVal.obj qs]
    ∧ (sortFields ps).Perm ps
    ∧ (sortFields ps).Pairwise (fun a b => strLe a.1 b.1 = true)
    ∧ generateKey [JsVal.obj [("id", JsShallow.prim (JsPrim.int 1)),
        ("name", JsShallow.prim (JsPrim.str "xx")), ("age", JsShallow.prim (JsPrim.int 1))]]
        = some "age=$-1&id=$-1&name=xx"
    ∧ generateKey [JsVal.obj [("age", JsShallow.prim (JsPrim.int 1)),
        ("name", JsShallow.prim (JsPrim.str "xx")), ("id", JsShallow.prim (JsPrim.int 1))]]
        = some "age=$-1&id=$-1&name=xx" :=
  ⟨generateKey_obj_perm ps qs hp hn, sortFields_perm ps, sortFields_sorted ps, rfl, rfl⟩

/-- C2 witness: the determinism theorem applied to the concrete two-field
records with names `id` and `age` in both orders. -/
theorem C2_key_determinism_and_ordering_witness :
    generateKey [JsVal.obj [("id", JsShallow.prim (JsPrim.int 1)),
        ("age", JsShallow.prim (JsPrim.int 1))]]
      = generateKey [JsVal.obj [("age", JsShallow.prim (JsPrim.int 1)),
        ("id", JsShallow.prim (JsPrim.int 1))]]
    ∧ (sortFields [("id", JsShallow.prim (JsPrim.int 1)),
        ("age", JsShallow.prim (JsPrim.int 1))]).Perm
        [("id", JsShallow.prim (JsPrim.int 1)), ("age", JsShallow.prim (JsPrim.int 1))]
    ∧ (sortFields [("id", JsShallow.prim (JsPrim.int 1)),
        ("age", JsShallow.prim (JsPrim.int 1))]).Pairwise (fun a b => strLe a.1 b.1 = true)
    ∧ generateKey [JsVal.obj [("id", JsShallow.prim (JsPrim.int 1)),
        ("name", JsShallow.prim (JsPrim.str "xx")), ("age", JsShallow.prim (JsPrim.int 1))]]
        = some "age=$-1&id=$-1&name=xx"
    ∧ generateKey [JsVal.obj [("age", JsShallow.prim (JsPrim.int 1)),
        ("name", JsShallow.prim (JsPrim.str "xx")), ("id", JsShallow.prim (JsPrim.int 1))]]
        = some "age=$-1&id=$-1&name=xx" :=
  C2_key_determinism_and_ordering
    [("id", JsShallow.prim (JsPrim.int 1)), ("age", JsShallow.prim (JsPrim.int 1))]
    [("age", JsShallow.prim (JsPrim.int 1)), ("id", JsShallow.prim (JsPrim.int 1))]
    (List.Perm.swap ("age", JsShallow.prim (JsPrim.int 1))
      ("id", JsShallow.prim (JsPrim.int 1)) [])
    (by decide)

/-- C6 counterexample: the claim says a failing top-level argument (here an
unsupported value such as a `Map`) makes `getCacheKey` return `null` for
the whole call; instead a bad top-level argument is silently skipped, and
`do(1, new Map())` derives the cacheable key `"$-1"`. -/
theorem C6_whole_call_failure_counterexample :
    generateKey [JsVal.prim (JsPrim.int 1), JsVal.unsupported] = some "$-1"
    ∧ getCacheKey KeyConfig.absent [JsVal.prim (JsPrim.int 1), JsVal.unsupported] ≠ none := by
  refine ⟨rfl, ?_⟩
  intro h
  simp [getCacheKey] at h
  exact Option.noConfusion (h.symm.trans (rfl : generateKey [JsVal.prim (JsPrim.int 1), JsVal.unsupported] = some "$-1"))

/-- C6 amended: a plain-object or array argument containing a nested or
complex member fails the whole derivation to `null`; a single unsupported
argument also yields `null` (no segments remain); but an unsupported
top-level argument among others is skipped rather than failing the call:
removing it from the argument list leaves the derived key unchanged
(unless the remainder is exactly the single-`undefined` special case). -/
theorem C6_whole_call_failure_amended (args pre post : List JsVal)
    (fields : List (String × JsShallow)) (elems : List JsShallow) :
    (JsVal.obj fields ∈ args → fields.any (fun kv => isBadShallow kv.2) = true →
      generateKey args = none)
    ∧ (JsVal.arr elems ∈ args → elems.any isBadShallow = true →
      generateKey args = none)
    ∧ generateKey [JsVal.unsupported] = none
    ∧ (pre ++ post ≠ [JsVal.prim JsPrim.undef] →
      generateKey (pre ++ JsVal.unsupported :: post) = generateKey (pre ++ post)) := by
  refine ⟨?_, ?_, rfl, ?_⟩
  · intro hmem hbad
    have hne : fields ≠ [] := by
      rcases List.any_eq_true.mp hbad with ⟨x, hx, _⟩
      intro h
      rw [h] at hx
      exact absurd hx (List.not_mem_nil x)
    have hf : segsOfArg (.obj fields) = .fail := by
      simp [segsOfArg, hne, hbad]
    exact generateKey_none_of_mem_fail args _ hmem hf
  · intro hmem hbad
    have hne : elems ≠ [] := by
      rcases List.any_eq_true.mp hbad with ⟨x, hx, _⟩
      intro h
      rw [h] at hx
      exact absurd hx (List.not_mem_nil x)
    have hf : segsOfArg (.arr elems) = .fail := by
      simp [segsOfArg, hne, hbad]
    exact generateKey_none_of_mem_fail args _ hmem hf
  · intro h
    have hneL : pre ++ JsVal.unsupported :: post ≠ [JsVal.prim JsPrim.undef] := by
      intro hc
      have hm : JsVal.unsupported ∈ pre ++ JsVal.unsupported :: post := by simp
      rw [hc] at hm
      simp at hm
    simp only [generateKey, if_neg hneL, if_neg h, genSegs_skip]

/-- C6 witness: amended behavior at concrete inputs — a record with a nested
record fails the call, an array with a complex element fails the call, and
an unsupported argument after a primitive is skipped. -/
theorem C6_whole_call_failure_amended_witness :
    generateKey [JsVal.obj [("id", JsShallow.prim (JsPrim.int 1)), ("d", JsShallow.complexv)]] = none
    ∧ generateKey [JsVal.arr [JsShallow.complexv]] = none
    ∧ generateKey [JsVal.prim (JsPrim.int 1), JsVal.unsupported]
        = generateKey [JsVal.prim (JsPrim.int 1)] := by
  refine ⟨?_, ?_, ?_⟩
  · exact (C6_whole_call_failure_amended
      [JsVal.obj [("id", JsShallow.prim (JsPrim.int 1)), ("d", JsShallow.complexv)]] [] []
      [("id", JsShallow.prim (JsPrim.int 1)), ("d", JsShallow.complexv)] []).1
      (by simp) (by decide)
  · exact (C6_whole_call_failure_amended [JsVal.arr [JsShallow.complexv]] [] [] []
      [JsShallow.complexv]).2.1 (by simp) (by decide)
  · exact (C6_whole_call_failure_amended [] [JsVal.prim (JsPrim.int 1)] [] [] []).2.2.2
      (by decide)

/-- C7 counterexample: the claim says a configured key function returning a
non-string value or the empty string makes `getCacheKey` return `null`;
instead a function returning the number `42` yields the key `"$-42"`, and
one returning the empty string yields the empty-string key `""`. -/
theorem C7_custom_key_counterexample :
    getCacheKey (KeyConfig.fn (fun _ => JsVal.prim (JsPrim.int 42))) [] = some "$-42"
    ∧ getCacheKey (KeyConfig.fn (fun _ => JsVal.prim (JsPrim.str ""))) [] = some "" :=
  ⟨rfl, rfl⟩

/-- C7 amended: a configured custom key fully overrides derivation — a key
function's result is passed through `transformKey` (so a fixed string, or a
string result, is used as-is, including the empty string); derivation
fails to `null` exactly when the result is non-primitive, while a
non-string primitive result `p` yields the key `"$-" ++ String(p)`. -/
theorem C7_custom_key_override_amended (f : List JsVal → JsVal) (args : List JsVal)
    (s : String) (p : JsPrim) :
    getCacheKey (KeyConfig.fn f) args = transformKey (f args)
    ∧ getCacheKey (KeyConfig.static (jstr s)) args = some s
    ∧ (isBadKeySegment (f args) = true → getCacheKey (KeyConfig.fn f) args = none)
    ∧ (f args = JsVal.prim p → (∀ t, p ≠ JsPrim.str t) →
      getCacheKey (KeyConfig.fn f) args = some ("$-" ++ jsString p)) := by
  refine ⟨rfl, rfl, ?_, ?_⟩
  · intro hbad
    cases hfa : f args with
    | prim q =>
      rw [hfa] at hbad
      simp [isBadKeySegment] at hbad
    | obj l => simp [getCacheKey, hfa, transformKey]
    | arr l => simp [getCacheKey, hfa, transformKey]
    | unsupported => simp [getCacheKey, hfa, transformKey]
  · intro hp hns
    cases p with
    | str t => exact absurd rfl (hns t)
    | int n => simp [getCacheKey, hp, transformKey]
    | nan => simp [getCacheKey, hp, transformKey]
    | bool b => simp [getCacheKey, hp, transformKey]
    | null => simp [getCacheKey, hp, transformKey]
    | undef => simp [getCacheKey, hp, transformKey]

/-- C7 witness: the amended theorem applied to a key function returning the
non-plain-object marker (derivation fails) and to one returning `true`. -/
theorem C7_custom_key_override_amended_witness :
    getCacheKey (KeyConfig.fn (fun _ => JsVal.unsupported)) [] = none
    ∧ getCacheKey (KeyConfig.fn (fun _ => JsVal.prim (JsPrim.bool true))) []
        = some ("$-" ++ jsString (JsPrim.bool true))
    ∧ getCacheKey (KeyConfig.static (jstr "999")) [] = some "999" := by
  refine ⟨?_, ?_, ?_⟩
  · exact (C7_custom_key_override_amended (fun _ => JsVal.unsupported) [] "999"
      (JsPrim.bool true)).2.2.1 rfl
  · exact (C7_custom_key_override_amended (fun _ => JsVal.prim (JsPrim.bool true)) [] "999"
      (JsPrim.bool true)).2.2.2 rfl (by intro t h; cases h)
  · exact (C7_custom_key_override_amended (fun _ => JsVal.prim (JsPrim.bool true)) [] "999"
      (JsPrim.bool true)).2.1

/-- C3 counterexample: for the empty-string key (which `set` accepts and
`has` can observe), the claim's "evicting the entry from the table as a
side effect of the probe" fails: after storing under `""` with `maxAge = 1`
at time 0, probing at time 2000 returns `false` but the entry is still in
the table, because the lazy-eviction path goes through `clear('')`, which
is a no-op on a falsy key. -/
theorem C3_expiry_counterexample :
    hasOp 2000 (jstr "") (setOp 1 0 (jstr "") "v" ([] : Table String)).table
      = (false, (setOp 1 0 (jstr "") "v" ([] : Table String)).table)
    ∧ alGet (setOp 1 0 (jstr "") "v" ([] : Table String)).table "" = some ⟨1000, "v"⟩ :=
  ⟨rfl, rfl⟩

/-- C3 amended: after `set` under a string key `k` with `maxAge = T > 0` at
time `now`, the entry's expire timestamp is `now + T * 1000` (maxAge is in
seconds, timestamps in milliseconds) and `has` is `true` up to that
moment; once more than `T` seconds have elapsed the probe returns `false`
and — provided `k` is nonempty — evicts the entry from the table as a side
effect; with `maxAge = 0` the expire field is `0` and the entry never
expires.  (For the empty-string key the expired probe returns `false`
without evicting; see the counterexample.) -/
theorem C3_expiry_amended (maxAge now t : Nat) (k : String) (d : String)
    (tbl : Table String) (hnd : (tbl.map Prod.fst).Nodup) :
    (0 < maxAge → alGet (setOp maxAge now (jstr k) d tbl).table k
      = some ⟨now + maxAge * 1000, d⟩)
    ∧ (0 < maxAge → t ≤ now + maxAge * 1000 →
      hasOp t (jstr k) (setOp maxAge now (jstr k) d tbl).table
        = (true, (setOp maxAge now (jstr k) d tbl).table))
    ∧ (0 < maxAge → now + maxAge * 1000 < t → k ≠ "" →
      (hasOp t (jstr k) (setOp maxAge now (jstr k) d tbl).table).1 = false
      ∧ alGet (hasOp t (jstr k) (setOp maxAge now (jstr k) d tbl).table).2 k = none)
    ∧ (maxAge = 0 → alGet (setOp maxAge now (jstr k) d tbl).table k = some ⟨0, d⟩
      ∧ ∀ s, hasOp s (jstr k) (setOp maxAge now (jstr k) d tbl).table
        = (true, (setOp maxAge now (jstr k) d tbl).table)) := by
  refine ⟨?_, ?_, ?_, ?_⟩
  · intro h
    rw [setOp_jstr, alGet_alSet_self, if_pos h]
  · intro h ht
    have hget : alGet (setOp maxAge now (jstr k) d tbl).table k
        = some ⟨now + maxAge * 1000, d⟩ := by
      rw [setOp_jstr, alGet_alSet_self, if_pos h]
    refine hasOp_jstr_live t k _ _ hget ?_
    intro hc
    have hc2 : t > now + maxAge * 1000 := hc.2
    omega
  · intro h ht hk
    have hget : alGet (setOp maxAge now (jstr k) d tbl).table k
        = some ⟨now + maxAge * 1000, d⟩ := by
      rw [setOp_jstr, alGet_alSet_self, if_pos h]
    have hexp : ((⟨now + maxAge * 1000, d⟩ : Entry String).expire ≠ 0
        ∧ t > (⟨now + maxAge * 1000, d⟩ : Entry String).expire) := by
      constructor
      · show now + maxAge * 1000 ≠ 0
        omega
      · show t > now + maxAge * 1000
        omega
    have hhas : hasOp t (jstr k) (setOp maxAge now (jstr k) d tbl).table
        = (false, clearTbl (jstr k) (setOp maxAge now (jstr k) d tbl).table) :=
      hasOp_jstr_expired t k _ _ hget hexp
    constructor
    · rw [hhas]
    · rw [hhas, clearTbl_jstr_ne k _ hk]
      exact alGet_alDel_self_of_nodup _ k
        (keys_alSet_nodup tbl k ⟨if maxAge > 0 then now + maxAge * 1000 else 0, d⟩ hnd)
  · intro h
    subst h
    have hget : alGet (setOp 0 now (jstr k) d tbl).table k = some ⟨0, d⟩ := by
      rw [setOp_jstr, alGet_alSet_self]
      rfl
    refine ⟨hget, fun s => hasOp_jstr_live s k _ _ hget (by simp)⟩

/-- C3 witness: the amended theorem at `maxAge = 1`, `now = 0`, key `"k"`,
probed at `t = 500` (live) and `t = 2000` (expired and evicted), and at
`maxAge = 0` (never expires). -/
theorem C3_expiry_amended_witness :
    alGet (setOp 1 0 (jstr "k") "v" ([] : Table String)).table "k" = some ⟨1000, "v"⟩
    ∧ hasOp 500 (jstr "k") (setOp 1 0 (jstr "k") "v" ([] : Table String)).table
      = (true, (setOp 1 0 (jstr "k") "v" ([] : Table String)).table)
    ∧ (hasOp 2000 (jstr "k") (setOp 1 0 (jstr "k") "v" ([] : Table String)).table).1 = false
    ∧ alGet (hasOp 2000 (jstr "k") (setOp 1 0 (jstr "k") "v" ([] : Table String)).table).2 "k"
      = none
    ∧ alGet (setOp 0 7 (jstr "k") "v" ([] : Table String)).table "k" = some ⟨0, "v"⟩ := by
  refine ⟨?_, ?_, ?_, ?_, ?_⟩
  · exact (C3_expiry_amended 1 0 500 "k" "v" [] (by decide)).1 (by decide)
  · exact (C3_expiry_amended 1 0 500 "k" "v" [] (by decide)).2.1 (by decide) (by decide)
  · exact ((C3_expiry_amended 1 0 2000 "k" "v" [] (by decide)).2.2.1 (by decide) (by decide)
      (by decide)).1
  · exact ((C3_expiry_amended 1 0 2000 "k" "v" [] (by decide)).2.2.1 (by decide) (by decide)
      (by decide)).2
  · exact ((C3_expiry_amended 0 7 0 "k" "v" [] (by decide)).2.2.2 rfl).1

/-- C8 counterexample: `CacheHandler.set` with a positive TTL schedules no
timer at all — the set effect's timer list is empty, and the freshly
stored entry remains in the table with no deferred eviction attached to
remove it once expired. -/
theorem C8_timer_counterexample :
    (setOp 1 0 (jstr "k") "v" ([] : Table String)).timers = []
    ∧ alGet (setOp 1 0 (jstr "k") "v" ([] : Table String)).table "k" = some ⟨1000, "v"⟩ :=
  ⟨rfl, rfl⟩

/-- C8 amended: the current `CacheHandler.set` schedules no eviction timer —
positive-TTL entries stay in the table until probed by `has`/`get` (lazy
eviction only); the older variant's `set` does schedule a timer at set
time, but with a zero-millisecond delay (strictly inside the TTL window),
so it evicts the entry immediately after `set` rather than once expired. -/
theorem C8_timer_amended (maxAge now : Nat) (k : String) (d : String) (tbl : Table String)
    (h : 0 < maxAge) :
    (setOp maxAge now (jstr k) d tbl).timers = []
    ∧ alGet (setOp maxAge now (jstr k) d tbl).table k = some ⟨now + maxAge * 1000, d⟩
    ∧ (oldSetOp maxAge now k d tbl).timers = [(0, k)]
    ∧ 0 < maxAge * 100 := by
  refine ⟨rfl, ?_, ?_, ?_⟩
  · rw [setOp_jstr, alGet_alSet_self, if_pos h]
  · simp [oldSetOp, if_pos h]
  · omega

/-- C8 witness: the amended theorem at `maxAge = 1`, `now = 0`, key `"k"`. -/
theorem C8_timer_amended_witness :
    (setOp 1 0 (jstr "k") "w" ([] : Table String)).timers = []
    ∧ alGet (setOp 1 0 (jstr "k") "w" ([] : Table String)).table "k" = some ⟨1000, "w"⟩
    ∧ (oldSetOp 1 0 "k" "w" ([] : Table String)).timers = [(0, "k")]
    ∧ 0 < 1 * 100 :=
  C8_timer_amended 1 0 "k" "w" [] (by decide)

/-- C9: the storage-write-failure claim against `_persistCache` evaluated at
the failing input — persistence configured, nonempty table, and a backend
whose `setItem` throws (e.g. quota exceeded).  The in-memory table is
unchanged (and, having no `catch` on the caller-facing chain involved, the
caller's promise is unaffected), but the cache code logs nothing and the
error escapes as an unhandled promise rejection: `_persistCache` wraps the
write in `Promise.all(...).then(...)` with no `catch` and no `logError`,
contradicting the claim's "caught and logged".  The final conjunct shows
the table is unchanged for every input. -/
theorem C9_storage_write_failure_bug :
    persistCacheRun (some "id") [("k", ⟨0, "v"⟩)] WriteOutcome.failure
      = { table := [("k", ⟨0, "v"⟩)], wrote := false, removedSlot := false,
          loggedError := false, unhandledRejection := true }
    ∧ (persistCacheRun (some "id") [("k", ⟨0, "v"⟩)] WriteOutcome.failure).loggedError = false
    ∧ (persistCacheRun (some "id") [("k", ⟨0, "v"⟩)] WriteOutcome.failure).unhandledRejection
      = true
    ∧ ∀ (pid : Option String) (tbl : Table String) (w : WriteOutcome),
      (persistCacheRun pid tbl w).table = tbl := by
  refine ⟨rfl, rfl, rfl, ?_⟩
  intro pid tbl w
  cases pid with
  | none => rfl
  | some id =>
    by_cases h : tbl = []
    · simp [persistCacheRun, h]
    · cases w <;> simp [persistCacheRun, h]

/-- C10: `clear` is a no-op on every falsy key other than `undefined` (the
empty string, `NaN`, `0`, `false`, `null`): both the entry table and the
persisted snapshot are left unchanged.  In particular an entry stored
under the empty-string key — which `set` accepts and `has` observes —
cannot be evicted by `clear('')`; only `clearAll()` removes it. -/
theorem C10_clear_noop_falsy (pid : Option String) (k : JsVal) (tbl : Table String)
    (store : Store) (maxAge now : Nat) (d : String)
    (hu : k ≠ JsVal.prim JsPrim.undef) (hf : truthy k = false) :
    clearOp pid k tbl store = (tbl, store)
    ∧ (setOp maxAge now (jstr "") d tbl).ok = true
    ∧ alGet (setOp maxAge now (jstr "") d tbl).table ""
      = some ⟨if maxAge > 0 then now + maxAge * 1000 else 0, d⟩
    ∧ (hasOp now (jstr "") (setOp maxAge now (jstr "") d tbl).table).1 = true
    ∧ clearOp pid (jstr "") (setOp maxAge now (jstr "") d tbl).table store
      = ((setOp maxAge now (jstr "") d tbl).table, store)
    ∧ (clearAllOp pid store).1 = [] := by
  refine ⟨?_, rfl, ?_, ?_, ?_, rfl⟩
  · unfold clearOp
    rw [normalizeKey_of_ne_undef k hu]
    simp [hf]
  · rw [setOp_jstr, alGet_alSet_self]
  · have hget : alGet (setOp maxAge now (jstr "") d tbl).table ""
        = some ⟨if maxAge > 0 then now + maxAge * 1000 else 0, d⟩ := by
      rw [setOp_jstr, alGet_alSet_self]
    have hlive : ¬ ((if maxAge > 0 then now + maxAge * 1000 else 0) ≠ 0
        ∧ now > (if maxAge > 0 then now + maxAge * 1000 else 0)) := by
      by_cases hm : maxAge > 0
      · rw [if_pos hm]; intro hc; omega
      · rw [if_neg hm]; simp
    rw [hasOp_jstr_live now "" _ _ hget hlive]
  · rfl

/-- C10 witness: the theorem at the falsy key `NaN` with a one-entry table,
and the empty-string-key scenario at `maxAge = 0`. -/
theorem C10_clear_noop_falsy_witness :
    clearOp (some "id") (JsVal.prim JsPrim.nan) [("x", ⟨0, "v"⟩)] [] = ([("x", ⟨0, "v"⟩)], [])
    ∧ (setOp 0 0 (jstr "") "v" ([("x", ⟨0, "v"⟩)] : Table String)).ok = true
    ∧ alGet (setOp 0 0 (jstr "") "v" ([("x", ⟨0, "v"⟩)] : Table String)).table ""
      = some ⟨if 0 > 0 then 0 + 0 * 1000 else 0, "v"⟩
    ∧ (hasOp 0 (jstr "") (setOp 0 0 (jstr "") "v"
        ([("x", ⟨0, "v"⟩)] : Table String)).table).1 = true
    ∧ clearOp (some "id") (jstr "") (setOp 0 0 (jstr "") "v"
        ([("x", ⟨0, "v"⟩)] : Table String)).table []
      = ((setOp 0 0 (jstr "") "v" ([("x", ⟨0, "v"⟩)] : Table String)).table, [])
    ∧ (clearAllOp (some "id") ([] : Store)).1 = [] :=
  C10_clear_noop_falsy (some "id") (JsVal.prim JsPrim.nan) [("x", ⟨0, "v"⟩)] [] 0 0 "v"
    (by decide) rfl

theorem alSet_append_of_absent {γ : Type} (l : List (String × γ)) (k : String) (v : γ)
    (h : alGet l k = none) : alSet l k v = l ++ [(k, v)] := by
  induction l with
  | nil => rfl
  | cons p rest ih =>
    rw [alGet_eq_none_iff] at h
    have hp : p.1 ≠ k := h p (by simp)
    have hrest : alGet rest k = none := by
      rw [alGet_eq_none_iff]
      intro q hq
      exact h q (by simp [hq])
    simp [alSet, hp, ih hrest]

theorem foldl_alSet_append {γ : Type} (L : List (String × γ)) (acc : List (String × γ))
    (h : ((acc ++ L).map Prod.fst).Nodup) :
    L.foldl (fun m e => alSet m e.1 e.2) acc = acc ++ L := by
  induction L generalizing acc with
  | nil => simp
  | cons x rest ih =>
    have hmap : ((acc ++ x :: rest).map Prod.fst)
        = acc.map Prod.fst ++ x.1 :: rest.map Prod.fst := by simp
    rw [hmap, List.nodup_append] at h
    have hx : alGet acc x.1 = none := by
      rw [alGet_eq_none_iff]
      intro p hp hpx
      exact h.2.2 (List.mem_map_of_mem Prod.fst hp) (by rw [hpx]; exact List.mem_cons_self _ _)
    have hstep : alSet acc x.1 x.2 = acc ++ [x] := alSet_append_of_absent acc x.1 x.2 hx
    have hassoc : ((acc ++ [x]) ++ rest).map Prod.fst
        = acc.map Prod.fst ++ x.1 :: rest.map Prod.fst := by simp
    have h2 : (((acc ++ [x]) ++ rest).map Prod.fst).Nodup := by
      rw [hassoc, List.nodup_append]
      exact h
    calc (x :: rest).foldl (fun m e => alSet m e.1 e.2) acc
        = rest.foldl (fun m e => alSet m e.1 e.2) (acc ++ [x]) := by
          rw [List.foldl_cons, hstep]
      _ = (acc ++ [x]) ++ rest := ih (acc ++ [x]) h2
      _ = acc ++ x :: rest := by simp

/-- C5: persistence round-trip.  For every table of settled entries written
by a persist-configured instance: a nonempty snapshot is stored under slot
`StorePre ++ pid` as the ordered sequence of two-element entries
`[cacheKey, (expire, data)]` in table order; a fresh instance loading that
slot reconstructs exactly the same table; and `get` on the reconstructed
table returns the same payloads as on the original (loading never touches
the producer — `_loadCache` only replays stored strings through
`Promise.resolve`). -/
theorem C5_persistence_roundtrip (pid : String) (tbl : Table String) (store : Store)
    (hnd : (tbl.map Prod.fst).Nodup) (hs : (store.map Prod.fst).Nodup) :
    (tbl ≠ [] → storeGet (persistCacheOp pid tbl store) (StorePre ++ pid)
      = some (tbl.map (fun p => (p.1, p.2.expire, p.2.data))))
    ∧ loadCacheOp pid (persistCacheOp pid tbl store) = tbl
    ∧ ∀ t k, (getOp t k (loadCacheOp pid (persistCacheOp pid tbl store))).1
      = (getOp t k tbl).1 := by
  have hload : loadCacheOp pid (persistCacheOp pid tbl store) = tbl := by
    by_cases hempty : tbl = []
    · subst hempty
      unfold loadCacheOp persistCacheOp
      rw [if_pos rfl]
      unfold storeGet storeRemove
      rw [alGet_alDel_self_of_nodup store (StorePre ++ pid) hs]
    · unfold loadCacheOp persistCacheOp
      rw [if_neg hempty]
      unfold storeGet storeSet
      rw [alGet_alSet_self]
      show (tbl.map (fun p => (p.1, p.2.expire, p.2.data))).foldl
          (fun m e => alSet m e.1 ⟨e.2.1, e.2.2⟩) [] = tbl
      rw [List.foldl_map]
      have h2 : tbl.foldl (fun m e => alSet m e.1 e.2) [] = [] ++ tbl :=
        foldl_alSet_append tbl [] (by simpa using hnd)
      simpa using h2
  refine ⟨?_, hload, ?_⟩
  · intro hempty
    unfold persistCacheOp
    rw [if_neg hempty]
    unfold storeGet storeSet
    rw [alGet_alSet_self]
  · intro t k
    rw [hload]

/-- C5 witness: the round-trip theorem at a concrete one-entry table. -/
theorem C5_persistence_roundtrip_witness :
    (([("id=$-1", ⟨0, "res"⟩)] : Table String) ≠ [] →
      storeGet (persistCacheOp "key" ([("id=$-1", ⟨0, "res"⟩)] : Table String) [])
          (StorePre ++ "key")
        = some (([("id=$-1", ⟨0, "res"⟩)] : Table String).map
            (fun p => (p.1, p.2.expire, p.2.data))))
    ∧ loadCacheOp "key" (persistCacheOp "key" ([("id=$-1", ⟨0, "res"⟩)] : Table String) [])
      = ([("id=$-1", ⟨0, "res"⟩)] : Table String)
    ∧ ∀ t k, (getOp t k (loadCacheOp "key"
        (persistCacheOp "key" ([("id=$-1", ⟨0, "res"⟩)] : Table String) []))).1
      = (getOp t k ([("id=$-1", ⟨0, "res"⟩)] : Table String)).1 :=
  C5_persistence_roundtrip "key" [("id=$-1", ⟨0, "res"⟩)] [] (by decide) (by decide)

theorem doSync_miss (maxAge : Nat) (kc : KeyConfig) (now : Nat) (args : List JsVal)
    (k : String) (st : PState)
    (hk : getCacheKey kc args = some k) (hne : k ≠ "")
    (habs : alGet st.table k = none) :
    doSync maxAge kc now args st
      = ({ table := alSet st.table k ⟨if maxAge > 0 then now + maxAge * 1000 else 0, st.calls⟩,
           calls := st.calls + 1 }, DoRes.fresh st.calls) := by
  unfold doSync
  rw [hk]
  simp only [if_pos hne, hasOp_jstr_none now k st.table habs, setOp_jstr]
  rfl

theorem doSync_hit (maxAge : Nat) (kc : KeyConfig) (now : Nat) (args : List JsVal)
    (k : String) (st : PState) (e : Entry Nat)
    (hk : getCacheKey kc args = some k) (hne : k ≠ "")
    (hget : alGet st.table k = some e) (hlive : ¬ (e.expire ≠ 0 ∧ now > e.expire)) :
    doSync maxAge kc now args st = (st, DoRes.cached k e.data) := by
  unfold doSync
  rw [hk]
  simp only [if_pos hne, hasOp_jstr_live now k st.table e hget hlive, hget]
  rfl

/-- C1 counterexample: the claim quantifies over every pair of calls with
equivalent keys issued before the first settles, but with `maxAge = 1` a
second call at `t = 2000` ms — after the registered entry's TTL has passed
yet before any settlement transition — finds the entry expired, evicts it,
and invokes the producer a second time (and receives a fresh, not a
deduplicated, promise): two producer invocations in the overlap window,
refuting "invoked exactly once". -/
theorem C1_dedup_counterexample :
    (doSync 1 KeyConfig.absent 2000 [JsVal.prim (JsPrim.int 7)]
      (doSync 1 KeyConfig.absent 0 [JsVal.prim (JsPrim.int 7)] ⟨[], 0⟩).1).1.calls = 2
    ∧ (doSync 1 KeyConfig.absent 2000 [JsVal.prim (JsPrim.int 7)]
      (doSync 1 KeyConfig.absent 0 [JsVal.prim (JsPrim.int 7)] ⟨[], 0⟩).1).2
      = DoRes.fresh 1 :=
  ⟨rfl, rfl⟩

/-- C1 amended: for two invocations of `do` with the same derived (truthy)
cache key, the second issued before the first settles and while the
registered entry is still live (`maxAge = 0`, or within `maxAge` seconds
of the first call), the producer is invoked exactly once: the first call
registers the in-flight entry synchronously (inside `doSync`, before any
suspension point) and returns the producer's own promise, the second
observes the entry and returns the cached chain backed by the same
producer promise, and whatever value that promise settles to, both calls
resolve to equal values (the cached caller sees the serialize/parse
round-trip of it).  A shared rejection reaches both callers through the
same underlying promise. -/
theorem C1_dedup_amended (maxAge t1 t2 : Nat) (kc : KeyConfig) (args : List JsVal)
    (k : String) (st0 : PState) (α : Type) (ser : α → String) (de : String → α)
    (out : Nat → α)
    (hk : getCacheKey kc args = some k) (hne : k ≠ "")
    (habs : alGet st0.table k = none)
    (hrt : ∀ v, de (ser v) = v)
    (hlive : maxAge = 0 ∨ t2 ≤ t1 + maxAge * 1000) :
    (doSync maxAge kc t2 args (doSync maxAge kc t1 args st0).1).1.calls = st0.calls + 1
    ∧ (doSync maxAge kc t1 args st0).2 = DoRes.fresh st0.calls
    ∧ (doSync maxAge kc t2 args (doSync maxAge kc t1 args st0).1).2
      = DoRes.cached k st0.calls
    ∧ resolvesTo ser de out (doSync maxAge kc t2 args (doSync maxAge kc t1 args st0).1).2
      = resolvesTo ser de out (doSync maxAge kc t1 args st0).2 := by
  have h1 := doSync_miss maxAge kc t1 args k st0 hk hne habs
  have hget : alGet (doSync maxAge kc t1 args st0).1.table k
      = some ⟨if maxAge > 0 then t1 + maxAge * 1000 else 0, st0.calls⟩ := by
    rw [h1]
    exact alGet_alSet_self st0.table k _
  have hlive2 : ¬ ((⟨if maxAge > 0 then t1 + maxAge * 1000 else 0, st0.calls⟩ :
      Entry Nat).expire ≠ 0
      ∧ t2 > (⟨if maxAge > 0 then t1 + maxAge * 1000 else 0, st0.calls⟩ : Entry Nat).expire) := by
    intro hc
    have hc1 : (if maxAge > 0 then t1 + maxAge * 1000 else 0) ≠ 0 := hc.1
    have hc2 : t2 > (if maxAge > 0 then t1 + maxAge * 1000 else 0) := hc.2
    rcases hlive with h | h
    · rw [if_neg (by omega)] at hc1
      exact hc1 rfl
    · by_cases hma : maxAge > 0
      · rw [if_pos hma] at hc2
        omega
      · rw [if_neg hma] at hc1
        exact hc1 rfl
  have h2 := doSync_hit maxAge kc t2 args k (doSync maxAge kc t1 args st0).1 _ hk hne hget hlive2
  refine ⟨?_, ?_, ?_, ?_⟩
  · rw [h2, h1]
  · rw [h1]
  · rw [h2]
  · rw [h2, h1]
    show de (ser (out st0.calls)) = out st0.calls
    exact hrt (out st0.calls)

/-- C1 witness: the amended theorem at `maxAge = 0` with the auto-derived
key `"$-7"`, the identity codec on strings, and calls at times 5 and 99. -/
theorem C1_dedup_amended_witness :
    (doSync 0 KeyConfig.absent 99 [JsVal.prim (JsPrim.int 7)]
      (doSync 0 KeyConfig.absent 5 [JsVal.prim (JsPrim.int 7)] ⟨[], 0⟩).1).1.calls = 0 + 1
    ∧ (doSync 0 KeyConfig.absent 5 [JsVal.prim (JsPrim.int 7)] ⟨[], 0⟩).2 = DoRes.fresh 0
    ∧ (doSync 0 KeyConfig.absent 99 [JsVal.prim (JsPrim.int 7)]
      (doSync 0 KeyConfig.absent 5 [JsVal.prim (JsPrim.int 7)] ⟨[], 0⟩).1).2
      = DoRes.cached "$-7" 0
    ∧ resolvesTo id id (fun _ => "ok")
        (doSync 0 KeyConfig.absent 99 [JsVal.prim (JsPrim.int 7)]
          (doSync 0 KeyConfig.absent 5 [JsVal.prim (JsPrim.int 7)] ⟨[], 0⟩).1).2
      = resolvesTo id id (fun _ => "ok")
          (doSync 0 KeyConfig.absent 5 [JsVal.prim (JsPrim.int 7)] ⟨[], 0⟩).2 :=
  C1_dedup_amended 0 5 99 KeyConfig.absent [JsVal.prim (JsPrim.int 7)] "$-7" ⟨[], 0⟩
    String id id (fun _ => "ok") rfl (by decide) rfl (fun _ => rfl) (Or.inl rfl)

/-- C4: rejection eviction.  For a call whose arguments derive a truthy
cache key not yet registered, `do` registers the in-flight entry
synchronously — `has(k)` is `true` right after the invocation — and
returns the producer's own promise, so its rejection reaches the caller
unchanged; when that promise rejects, the handler attached by `set`
deletes the entry (`has(k)` becomes `false`), and a subsequent `do` with
the same arguments misses the cache and invokes the producer again. -/
theorem C4_rejection_eviction (maxAge : Nat) (kc : KeyConfig) (args : List JsVal)
    (k : String) (st0 : PState) (t t2 : Nat)
    (hk : getCacheKey kc args = some k) (hne : k ≠ "")
    (habs : alGet st0.table k = none) :
    (hasOp t (jstr k) (doSync maxAge kc t args st0).1.table).1 = true
    ∧ (doSync maxAge kc t args st0).2 = DoRes.fresh st0.calls
    ∧ alGet (settleRejected k (doSync maxAge kc t args st0).1).table k = none
    ∧ (hasOp t2 (jstr k) (settleRejected k (doSync maxAge kc t args st0).1).table).1 = false
    ∧ (doSync maxAge kc t2 args (settleRejected k (doSync maxAge kc t args st0).1)).1.calls
      = st0.calls + 2
    ∧ (doSync maxAge kc t2 args (settleRejected k (doSync maxAge kc t args st0).1)).2
      = DoRes.fresh (st0.calls + 1) := by
  have h1 := doSync_miss maxAge kc t args k st0 hk hne habs
  have hget : alGet (doSync maxAge kc t args st0).1.table k
      = some ⟨if maxAge > 0 then t + maxAge * 1000 else 0, st0.calls⟩ := by
    rw [h1]
    exact alGet_alSet_self st0.table k _
  have hlive : ¬ ((⟨if maxAge > 0 then t + maxAge * 1000 else 0, st0.calls⟩ :
      Entry Nat).expire ≠ 0
      ∧ t > (⟨if maxAge > 0 then t + maxAge * 1000 else 0, st0.calls⟩ : Entry Nat).expire) := by
    intro hc
    have hc1 : (if maxAge > 0 then t + maxAge * 1000 else 0) ≠ 0 := hc.1
    have hc2 : t > (if maxAge > 0 then t + maxAge * 1000 else 0) := hc.2
    by_cases hm : maxAge > 0
    · rw [if_pos hm] at hc2
      omega
    · rw [if_neg hm] at hc1
      exact hc1 rfl
  have hdel : (settleRejected k (doSync maxAge kc t args st0).1).table = st0.table := by
    unfold settleRejected
    rw [h1]
    exact alDel_alSet_of_absent st0.table k _ habs
  have hcalls : (settleRejected k (doSync maxAge kc t args st0).1).calls = st0.calls + 1 := by
    unfold settleRejected
    rw [h1]
  have h3 := doSync_miss maxAge kc t2 args k (settleRejected k (doSync maxAge kc t args st0).1)
    hk hne (by rw [hdel]; exact habs)
  refine ⟨?_, ?_, ?_, ?_, ?_, ?_⟩
  · rw [hasOp_jstr_live t k _ _ hget hlive]
  · rw [h1]
  · rw [hdel]
    exact habs
  · rw [hdel, hasOp_jstr_none t2 k st0.table habs]
  · rw [h3, hcalls]
  · rw [h3, hcalls]

/-- C4 witness: the theorem at `maxAge = 0`, the auto-derived key `"$-7"`,
first call at time 5, rejection, and retry at time 99. -/
theorem C4_rejection_eviction_witness :
    (hasOp 5 (jstr "$-7") (doSync 0 KeyConfig.absent 5 [JsVal.prim (JsPrim.int 7)]
      ⟨[], 0⟩).1.table).1 = true
    ∧ (doSync 0 KeyConfig.absent 5 [JsVal.prim (JsPrim.int 7)] ⟨[], 0⟩).2 = DoRes.fresh 0
    ∧ alGet (settleRejected "$-7" (doSync 0 KeyConfig.absent 5 [JsVal.prim (JsPrim.int 7)]
        ⟨[], 0⟩).1).table "$-7" = none
    ∧ (hasOp 99 (jstr "$-7") (settleRejected "$-7" (doSync 0 KeyConfig.absent 5
        [JsVal.prim (JsPrim.int 7)] ⟨[], 0⟩).1).table).1 = false
    ∧ (doSync 0 KeyConfig.absent 99 [JsVal.prim (JsPrim.int 7)]
        (settleRejected "$-7" (doSync 0 KeyConfig.absent 5 [JsVal.prim (JsPrim.int 7)]
          ⟨[], 0⟩).1)).1.calls = 0 + 2
    ∧ (doSync 0 KeyConfig.absent 99 [JsVal.prim (JsPrim.int 7)]
        (settleRejected "$-7" (doSync 0 KeyConfig.absent 5 [JsVal.prim (JsPrim.int 7)]
          ⟨[], 0⟩).1)).2 = DoRes.fresh (0 + 1) :=
  C4_rejection_eviction 0 KeyConfig.absent [JsVal.prim (JsPrim.int 7)] "$-7" ⟨[], 0⟩ 5 99
    rfl (by decide) rfl

end PromiseCachify
